import Mathlib

/-!
Shallow embedding of the cygraph storage backends
(include/graph/adjacency_list.hpp and include/graph/adjacency_matrix.hpp)
and proofs about the frozen claims.

C++ unordered_set and unordered_map are modelled as lists with set/map
semantics (membership by equality, at most one binding per key in every
reachable state).  Iteration order is fixed by the list, which is harmless
here: every claim is insensitive to container iteration order.  Operations
that can throw return an error value together with the state at the moment
of the throw, mirroring the fact that a thrown C++ exception leaves the
object in whatever state it had reached.
-/

/-- The four error conditions of the spec's error taxonomy.  In the C++
code every one of them is a std::invalid_argument distinguished by its
message text. -/
inductive GraphError where
  | duplicateVertex
  | unknownVertex
  | edgeNotFound
  | edgeAlreadyExists
deriving DecidableEq, Repr

/-- Result of an operation that can fail (models a value return vs a
thrown std::invalid_argument). -/
inductive GraphResult (α : Type) where
  | ok : α → GraphResult α
  | err : GraphError → GraphResult α
deriving DecidableEq, Repr

section ListHelpers

variable {V : Type} [DecidableEq V] {A W : Type}

/-- Membership test on a list, models std::find over an unordered_set. -/
def lmem (v : V) : List V → Bool
  | [] => false
  | x :: rest => if x = v then true else lmem v rest

/-- Remove every occurrence of an element; models unordered_set::erase
(at most one occurrence exists in any reachable state). -/
def lerase (l : List V) (v : V) : List V :=
  l.filter (fun x => !(x = v : Bool))

/-- Set insertion: unordered_set::insert is a no-op when the element is
already present. -/
def sinsert (l : List V) (v : V) : List V :=
  if lmem v l then l else l ++ [v]

/-- The element list of the unordered_set built from the given elements
(duplicates collapse). -/
def sdedup : List V → List V
  | [] => []
  | v :: rest => if lmem v rest then sdedup rest else v :: sdedup rest

/-- Map lookup; models unordered_map::find. -/
def alGet : List (V × A) → V → Option A
  | [], _ => none
  | (k, a) :: rest, v => if k = v then some a else alGet rest v

/-- Map lookup with default. -/
def alGetD (m : List (V × A)) (v : V) (d : A) : A :=
  (alGet m v).getD d

/-- Insert-or-assign; models assignment through unordered_map::operator[]. -/
def alSet : List (V × A) → V → A → List (V × A)
  | [], v, a => [(v, a)]
  | (k, b) :: rest, v, a => if k = v then (v, a) :: rest else (k, b) :: alSet rest v a

/-- Map erase by key. -/
def alErase : List (V × A) → V → List (V × A)
  | [], _ => []
  | (k, b) :: rest, v => if k = v then alErase rest v else (k, b) :: alErase rest v

/-- Read through unordered_map::operator[]: yields the mapped value and the
map after the access, which gains a default-constructed entry when the key
was absent. -/
def alGetIns (m : List (V × A)) (v : V) (d : A) : A × List (V × A) :=
  match alGet m v with
  | some a => (a, m)
  | none => (d, m ++ [(v, d)])

/-- First weight stored under a key in a neighbour vector; models the
linear scan `for child : list if child.first == v return child.second`. -/
def findWeight : List (V × W) → V → Option W
  | [], _ => none
  | (x, w) :: rest, v => if x = v then some w else findWeight rest v

/-- Remove the entry at the index of the first occurrence of the key, a
no-op when the key is absent; models the to_remove scan followed by
vector::erase guarded by to_remove < size. -/
def eraseFirstKey : List (V × W) → V → List (V × W)
  | [], _ => []
  | (x, w) :: rest, v => if x = v then rest else (x, w) :: eraseFirstKey rest v

/-- No key occurs twice in a neighbour vector. -/
def nodupKeysB : List (V × W) → Bool
  | [] => true
  | (x, _) :: rest => !(findWeight rest x).isSome && nodupKeysB rest

/-- List read by index with default; models vector::operator[] (an
out-of-range index is undefined behaviour in C++ and never reached in the
theorems below). -/
def lgetD : List A → Nat → A → A
  | [], _, d => d
  | a :: _, 0, _ => a
  | _ :: rest, i + 1, d => lgetD rest i d

/-- List write by index, a no-op out of range (out of range is undefined
behaviour in C++ and never reached in the theorems below). -/
def lset : List A → Nat → A → List A
  | [], _, _ => []
  | _ :: rest, 0, a => a :: rest
  | b :: rest, i + 1, a => b :: lset rest i a

/-- Remove the element at an index; models vector::erase of one position. -/
def lEraseIdx : List A → Nat → List A
  | [], _ => []
  | _ :: rest, 0 => rest
  | a :: rest, i + 1 => a :: lEraseIdx rest i

/-- Pair each element with its position, starting at a given index. -/
def withIdx (A : Type) : Nat → List A → List (Nat × A)
  | _, [] => []
  | i, a :: rest => (i, a) :: withIdx A (i + 1) rest

end ListHelpers

/-- AdjacencyListGraph: the weighted adjacency-list backend.  Field
vertices is the unordered_set of AdjacencyListGraphCommon; adjacency_list
is the unordered_map from vertex to its vector of (neighbour, weight)
pairs; directed is inherited from the abstract Graph base class. -/
structure AdjacencyListGraph (V W : Type) where
  directed : Bool
  vertices : List V
  adjacency_list : List (V × List (V × W))
deriving DecidableEq, Repr

namespace AdjacencyListGraph

variable {V W : Type} [DecidableEq V]

/-- The two-argument constructor AdjacencyListGraph(directed, vertices):
stores the flag and the vertex set and gives every vertex an empty
neighbour vector. -/
def mkGraph (directed : Bool) (vs : List V) : AdjacencyListGraph V W :=
  let s := sdedup vs
  { directed := directed
    vertices := s
    adjacency_list := s.map (fun v => (v, [])) }

/-- AdjacencyListGraphCommon::has_vertex: std::find over the vertex set. -/
def has_vertex (g : AdjacencyListGraph V W) (v : V) : Bool :=
  lmem v g.vertices

/-- AdjacencyListGraphCommon::get_vertices. -/
def get_vertices (g : AdjacencyListGraph V W) : List V :=
  g.vertices

/-- AdjacencyListGraph::get_edge_weight: scans adjacency_list[u] for v and
returns its weight, throwing when no such neighbour is found.  The
operator[] access inserts an empty vector when u has no map entry, so the
map after the call is returned as well. -/
def get_edge_weight (g : AdjacencyListGraph V W) (u v : V) :
    GraphResult W × AdjacencyListGraph V W :=
  let p := alGetIns g.adjacency_list u []
  (match findWeight p.1 v with
   | some w => .ok w
   | none => .err .edgeNotFound,
   { g with adjacency_list := p.2 })

/-- AdjacencyListGraph::add_vertex: the common duplicate check and vertex
insertion, then a fresh empty neighbour vector. -/
def add_vertex (g : AdjacencyListGraph V W) (v : V) :
    Option GraphError × AdjacencyListGraph V W :=
  if has_vertex g v then (some .duplicateVertex, g)
  else (none, { g with
                vertices := g.vertices ++ [v]
                adjacency_list := alSet g.adjacency_list v [] })

/-- AdjacencyListGraph::add_vertices: the common code first checks every
vertex of the batch against the graph and throws before any mutation if
one is present; otherwise all are inserted and each gets an empty
neighbour vector.  The argument is an unordered_set, so duplicates in the
supplied list collapse. -/
def add_vertices (g : AdjacencyListGraph V W) (vs0 : List V) :
    Option GraphError × AdjacencyListGraph V W :=
  let vs := sdedup vs0
  if vs.any (fun v => has_vertex g v) then (some .duplicateVertex, g)
  else (none, { g with
                vertices := g.vertices ++ vs
                adjacency_list := vs.foldl (fun m v => alSet m v []) g.adjacency_list })

/-- AdjacencyListGraph::remove_vertex: the common code erases v from the
vertex set (throwing when absent), then the map entry of v is erased.
The final loop that is meant to strip v from the other neighbour vectors
assigns each vector to the local variable children and erases from that
local copy, so the stored vectors are left unchanged. -/
def remove_vertex (g : AdjacencyListGraph V W) (v : V) :
    Option GraphError × AdjacencyListGraph V W :=
  if has_vertex g v then
    (none, { g with
             vertices := lerase g.vertices v
             adjacency_list := alErase g.adjacency_list v })
  else (some .unknownVertex, g)

/-- Net effect of the set_edge_weight scan on one neighbour vector: the
entry at the first occurrence of the key is erased when present, then the
new pair is pushed at the back. -/
def setPair (l : List (V × W)) (v : V) (w : W) : List (V × W) :=
  eraseFirstKey l v ++ [(v, w)]

/-- AdjacencyListGraph::set_edge_weight: throws when an endpoint is not a
vertex; otherwise replaces-or-appends (v, w) in adjacency_list[u], and
mirrors into adjacency_list[v] when the graph is undirected. -/
def set_edge_weight (g : AdjacencyListGraph V W) (u v : V) (w : W) :
    Option GraphError × AdjacencyListGraph V W :=
  if !(has_vertex g u) || !(has_vertex g v) then (some .unknownVertex, g)
  else
    let p := alGetIns g.adjacency_list u []
    let al2 := alSet p.2 u (setPair p.1 v w)
    if g.directed then (none, { g with adjacency_list := al2 })
    else
      let q := alGetIns al2 v []
      let al4 := alSet q.2 v (setPair q.1 u w)
      (none, { g with adjacency_list := al4 })

/-- AdjacencyListGraph::remove_edge: throws UnknownVertex when an endpoint
is absent; throws EdgeNotFound when v does not occur in adjacency_list[u];
otherwise erases the first occurrence, and for an undirected graph erases
at the index of the first occurrence of u in adjacency_list[v] (there the
C++ code erases even when u is absent, an out-of-range vector::erase that
is undefined behaviour; modelled as the no-op of eraseFirstKey). -/
def remove_edge (g : AdjacencyListGraph V W) (u v : V) :
    Option GraphError × AdjacencyListGraph V W :=
  if !(has_vertex g u) || !(has_vertex g v) then (some .unknownVertex, g)
  else
    let p := alGetIns g.adjacency_list u []
    if (findWeight p.1 v).isSome then
      let al2 := alSet p.2 u (eraseFirstKey p.1 v)
      if g.directed then (none, { g with adjacency_list := al2 })
      else
        let q := alGetIns al2 v []
        (none, { g with adjacency_list := alSet q.2 v (eraseFirstKey q.1 u) })
    else (some .edgeNotFound, { g with adjacency_list := p.2 })

/-- AdjacencyListGraph::has_edge: false when either endpoint is absent,
otherwise scans adjacency_list[u] for v (the operator[] access can extend
the map, hence the returned state). -/
def has_edge (g : AdjacencyListGraph V W) (u v : V) :
    Bool × AdjacencyListGraph V W :=
  if !(has_vertex g u) || !(has_vertex g v) then (false, g)
  else
    let p := alGetIns g.adjacency_list u []
    ((findWeight p.1 v).isSome, { g with adjacency_list := p.2 })

/-- AdjacencyListGraph::get_children: throws when v is absent; otherwise
the set of first components of adjacency_list[v]. -/
def get_children (g : AdjacencyListGraph V W) (v : V) :
    GraphResult (List V) × AdjacencyListGraph V W :=
  if !(has_vertex g v) then (.err .unknownVertex, g)
  else
    let p := alGetIns g.adjacency_list v []
    (.ok (p.1.map Prod.fst).dedup, { g with adjacency_list := p.2 })

/-- AdjacencyListGraph::get_parents: throws when v is absent; otherwise
collects every map key x whose vector contains v, skipping the entry of v
itself via the `continue` on it.first == v. -/
def get_parents (g : AdjacencyListGraph V W) (v : V) :
    GraphResult (List V) :=
  if !(has_vertex g v) then .err .unknownVertex
  else .ok ((g.adjacency_list.filter
      (fun p => if p.1 = v then false else (findWeight p.2 v).isSome)).map Prod.fst)

/-- Every vertex owns an entry of the adjacency map (holds in every
reachable state: the constructor and both add operations create entries
together with vertices, and remove_vertex deletes them together). -/
def wfKeys (g : AdjacencyListGraph V W) : Bool :=
  g.vertices.all (fun v => (alGet g.adjacency_list v).isSome)

/-- No neighbour vector mentions the same neighbour twice (holds in every
reachable state: set_edge_weight erases an existing occurrence before it
appends). -/
def neighborKeysNodup (g : AdjacencyListGraph V W) : Bool :=
  g.adjacency_list.all (fun p => nodupKeysB p.2)

/-- Every stored edge has its mirror: for each map entry (x, l) and each
(y, w) in l, x occurs in the vector of y (the undirected invariant). -/
def mirrorB (g : AdjacencyListGraph V W) : Bool :=
  g.adjacency_list.all (fun p =>
    p.2.all (fun c => (findWeight (alGetD g.adjacency_list c.1 []) p.1).isSome))

/-- No map key occurs twice (holds in every reachable state). -/
def mapKeysNodup (g : AdjacencyListGraph V W) : Bool :=
  nodupKeysB g.adjacency_list

end AdjacencyListGraph

/-- AdjacencyListGraph<Vertex, bool>: the unweighted adjacency-list
specialization.  Each vertex maps to an unordered_set of neighbours. -/
structure AdjacencyListGraphBool (V : Type) where
  directed : Bool
  vertices : List V
  adjacency_list : List (V × List V)
deriving DecidableEq, Repr

namespace AdjacencyListGraphBool

variable {V : Type} [DecidableEq V]

/-- The two-argument constructor: stores the flag and the vertex set and
gives every vertex an empty neighbour set. -/
def mkGraph (directed : Bool) (vs : List V) : AdjacencyListGraphBool V :=
  let s := sdedup vs
  { directed := directed
    vertices := s
    adjacency_list := s.map (fun v => (v, [])) }

/-- AdjacencyListGraphCommon::has_vertex. -/
def has_vertex (g : AdjacencyListGraphBool V) (v : V) : Bool :=
  lmem v g.vertices

/-- AdjacencyListGraphCommon::get_vertices. -/
def get_vertices (g : AdjacencyListGraphBool V) : List V :=
  g.vertices

/-- has_edge of the specialization: no vertex check at all, just std::find
over adjacency_list[u]; the operator[] access inserts an empty neighbour
set when u has no map entry, so the map after the call is returned too. -/
def has_edge (g : AdjacencyListGraphBool V) (u v : V) :
    Bool × AdjacencyListGraphBool V :=
  let p := alGetIns g.adjacency_list u []
  (lmem v p.1, { g with adjacency_list := p.2 })

/-- get_edge_weight of the specialization: an alias of has_edge except
that it throws when either vertex is not in the graph. -/
def get_edge_weight (g : AdjacencyListGraphBool V) (u v : V) :
    GraphResult Bool × AdjacencyListGraphBool V :=
  if !(has_vertex g u) || !(has_vertex g v) then (.err .unknownVertex, g)
  else
    let p := has_edge g u v
    (.ok p.1, p.2)

/-- add_vertex of the specialization. -/
def add_vertex (g : AdjacencyListGraphBool V) (v : V) :
    Option GraphError × AdjacencyListGraphBool V :=
  if has_vertex g v then (some .duplicateVertex, g)
  else (none, { g with
                vertices := g.vertices ++ [v]
                adjacency_list := alSet g.adjacency_list v [] })

/-- add_vertices of the specialization: common all-or-nothing check, then
insertion of all vertices with fresh empty neighbour sets. -/
def add_vertices (g : AdjacencyListGraphBool V) (vs0 : List V) :
    Option GraphError × AdjacencyListGraphBool V :=
  let vs := sdedup vs0
  if vs.any (fun v => has_vertex g v) then (some .duplicateVertex, g)
  else (none, { g with
                vertices := g.vertices ++ vs
                adjacency_list := vs.foldl (fun m v => alSet m v []) g.adjacency_list })

/-- remove_vertex of the specialization: erases v from the vertex set and
the map, then erases v in place from every remaining neighbour set (this
loop mutates it.second through a reference, unlike the weighted class). -/
def remove_vertex (g : AdjacencyListGraphBool V) (v : V) :
    Option GraphError × AdjacencyListGraphBool V :=
  if has_vertex g v then
    (none, { g with
             vertices := lerase g.vertices v
             adjacency_list := (alErase g.adjacency_list v).map
               (fun p => (p.1, lerase p.2 v)) })
  else (some .unknownVertex, g)

/-- remove_edge of the specialization: only checks has_edge (no vertex
check) and throws EdgeNotFound when it is false; otherwise erases v from
the set of u and, when undirected, u from the set of v. -/
def remove_edge (g : AdjacencyListGraphBool V) (u v : V) :
    Option GraphError × AdjacencyListGraphBool V :=
  let p := has_edge g u v
  if !p.1 then (some .edgeNotFound, p.2)
  else
    let g1 := p.2
    let q := alGetIns g1.adjacency_list u []
    let al2 := alSet q.2 u (lerase q.1 v)
    if g1.directed then (none, { g1 with adjacency_list := al2 })
    else
      let r := alGetIns al2 v []
      (none, { g1 with adjacency_list := alSet r.2 v (lerase r.1 u) })

/-- set_edge_weight of the specialization: weight true inserts the edge
(mirrored when undirected); weight false calls remove_edge and swallows
its failure. -/
def set_edge_weight (g : AdjacencyListGraphBool V) (u v : V) (w : Bool) :
    Option GraphError × AdjacencyListGraphBool V :=
  if !(has_vertex g u) || !(has_vertex g v) then (some .unknownVertex, g)
  else if w then
    let p := alGetIns g.adjacency_list u []
    let al2 := alSet p.2 u (sinsert p.1 v)
    if g.directed then (none, { g with adjacency_list := al2 })
    else
      let q := alGetIns al2 v []
      (none, { g with adjacency_list := alSet q.2 v (sinsert q.1 u) })
  else
    let r := remove_edge g u v
    (none, r.2)

/-- add_edge of the specialization: throws EdgeAlreadyExists when the edge
is present (this has_edge call can extend the map), then UnknownVertex
when an endpoint is absent; otherwise inserts the edge, mirrored when
undirected. -/
def add_edge (g : AdjacencyListGraphBool V) (u v : V) :
    Option GraphError × AdjacencyListGraphBool V :=
  let p := has_edge g u v
  if p.1 then (some .edgeAlreadyExists, p.2)
  else
    let g1 := p.2
    if !(has_vertex g1 u) || !(has_vertex g1 v) then (some .unknownVertex, g1)
    else
      let q := alGetIns g1.adjacency_list u []
      let al2 := alSet q.2 u (sinsert q.1 v)
      if g1.directed then (none, { g1 with adjacency_list := al2 })
      else
        let r := alGetIns al2 v []
        (none, { g1 with adjacency_list := alSet r.2 v (sinsert r.1 u) })

/-- get_children of the specialization: throws when v is absent, otherwise
returns adjacency_list[v]. -/
def get_children (g : AdjacencyListGraphBool V) (v : V) :
    GraphResult (List V) × AdjacencyListGraphBool V :=
  if !(has_vertex g v) then (.err .unknownVertex, g)
  else
    let p := alGetIns g.adjacency_list v []
    (.ok p.1, { g with adjacency_list := p.2 })

/-- get_parents of the specialization: throws when v is absent, otherwise
collects every map key whose neighbour set contains v (no entry is
skipped, so a self-loop makes v its own parent). -/
def get_parents (g : AdjacencyListGraphBool V) (v : V) :
    GraphResult (List V) :=
  if !(has_vertex g v) then .err .unknownVertex
  else .ok ((g.adjacency_list.filter (fun p => lmem v p.2)).map Prod.fst)

/-- Every vertex owns an entry of the adjacency map (holds in every
reachable state). -/
def wfKeys (g : AdjacencyListGraphBool V) : Bool :=
  g.vertices.all (fun v => (alGet g.adjacency_list v).isSome)

/-- No map key occurs twice (holds in every reachable state). -/
def mapKeysNodup (g : AdjacencyListGraphBool V) : Bool :=
  nodupKeysB g.adjacency_list

/-- Every stored edge has its mirror: for each map entry (x, s) and each
y in s, x occurs in the neighbour set of y (the undirected invariant). -/
def mirrorB (g : AdjacencyListGraphBool V) : Bool :=
  g.adjacency_list.all (fun p =>
    p.2.all (fun y => lmem p.1 (alGetD g.adjacency_list y [])))

end AdjacencyListGraphBool

/-- AdjacencyMatrixGraph: the dense adjacency-matrix backend.  A matrix
cell holds a pointer into the auxiliary edge_weights map; a cell is
modelled as the key of the map slot it points at (slots of an
unordered_map are stable, so a pointer determines the key under which the
slot was created), and nullptr as none.  vertex_indices maps a vertex to
its row/column index and vertices keeps the vertex list in index order. -/
structure AdjacencyMatrixGraph (V W : Type) where
  directed : Bool
  adjacency_matrix : List (List (Option (Nat × Nat)))
  edge_weights : List ((Nat × Nat) × W)
  vertex_indices : List (V × Nat)
  vertices : List V
deriving DecidableEq, Repr

namespace AdjacencyMatrixGraph

variable {V W : Type} [DecidableEq V]

/-- Matrix cell read, adjacency_matrix[i][j]; an index past the end is
undefined behaviour in C++ and is modelled as an empty cell. -/
def cellAt (am : List (List (Option (Nat × Nat)))) (i j : Nat) :
    Option (Nat × Nat) :=
  lgetD (lgetD am i []) j none

/-- Matrix cell write, adjacency_matrix[i][j] = c; an index past the end
is undefined behaviour in C++ and is modelled as a no-op. -/
def setCell (am : List (List (Option (Nat × Nat)))) (i j : Nat)
    (c : Option (Nat × Nat)) : List (List (Option (Nat × Nat))) :=
  lset am i (lset (lgetD am i []) j c)

/-- The two-argument constructor AdjacencyMatrixGraph(directed, vertices):
copies the vertex set into the vertex vector, numbers the vertices in
order, and allocates the full n-by-n matrix of null cells. -/
def mkGraph (directed : Bool) (vs : List V) : AdjacencyMatrixGraph V W :=
  let s := sdedup vs
  let n := s.length
  { directed := directed
    vertices := s
    vertex_indices := (withIdx V 0 s).map (fun p => (p.2, p.1))
    adjacency_matrix := List.replicate n (List.replicate n none)
    edge_weights := [] }

/-- AdjacencyMatrixGraph::has_vertex: std::find over the vertex vector. -/
def has_vertex (g : AdjacencyMatrixGraph V W) (v : V) : Bool :=
  lmem v g.vertices

/-- AdjacencyMatrixGraph::get_vertices. -/
def get_vertices (g : AdjacencyMatrixGraph V W) : List V :=
  g.vertices

/-- The index a vertex maps to (vertex_indices[v]); only read after the
membership check of get_vertex_int, whose success guarantees the entry
exists in every reachable state, so the default is never produced. -/
def idxD (g : AdjacencyMatrixGraph V W) (v : V) : Nat :=
  alGetD g.vertex_indices v 0

/-- AdjacencyMatrixGraph::get_vertex_int: the index of a vertex, throwing
when it is not in the vertex vector. -/
def get_vertex_int (g : AdjacencyMatrixGraph V W) (v : V) : GraphResult Nat :=
  if lmem v g.vertices then .ok (idxD g v) else .err .unknownVertex

/-- AdjacencyMatrixGraph::get_edge_weight: dereferences the cell's weight
pointer when non-null, throwing EdgeNotFound on a null cell.  A cell whose
slot no longer exists in edge_weights is a dangling pointer, undefined
behaviour in C++; it is mapped to the same failure and never reached in
the theorems below. -/
def get_edge_weight (g : AdjacencyMatrixGraph V W) (u v : V) :
    GraphResult W :=
  match get_vertex_int g u with
  | .err e => .err e
  | .ok ui =>
    match get_vertex_int g v with
    | .err e => .err e
    | .ok vi =>
      match cellAt g.adjacency_matrix ui vi with
      | none => .err .edgeNotFound
      | some key =>
        match alGet g.edge_weights key with
        | some w => .ok w
        | none => .err .edgeNotFound

/-- AdjacencyMatrixGraph::add_vertex: duplicate check, then the vertex is
appended with index n_vertices, a null cell is pushed onto every existing
row, and a new row of n_vertices null cells is appended — n_vertices is
the count taken before the insertion, so the new row is one cell shorter
than the new dimension. -/
def add_vertex (g : AdjacencyMatrixGraph V W) (v : V) :
    Option GraphError × AdjacencyMatrixGraph V W :=
  if lmem v g.vertices then (some .duplicateVertex, g)
  else
    let n := g.vertices.length
    (none, { g with
             vertices := g.vertices ++ [v]
             vertex_indices := alSet g.vertex_indices v n
             adjacency_matrix :=
               (g.adjacency_matrix.map (fun row => row ++ [none]))
                 ++ [List.replicate n none] })

/-- Assign consecutive indices to a run of vertices, starting at the given
number: the loop `vertex_indices[v] = n_vertices; n_vertices++`. -/
def assignFrom : List (V × Nat) → List V → Nat → List (V × Nat)
  | m, [], _ => m
  | m, v :: rest, i => assignFrom (alSet m v i) rest (i + 1)

/-- AdjacencyMatrixGraph::add_vertices: checks every batch vertex before
any mutation.  On success the batch is appended to the vertex vector, but
the loop then numbers the new vertices starting at the already-grown
count, m more null columns are glued onto every old row where m is the
count after that loop, and of the m appended rows only the first is a row
of m null cells — the other m - 1 are default-constructed empty vectors
(the local arrays new_edge_weights and new_rows are sized n_vertices after
the increment loop and only their first element is initialized). -/
def add_vertices (g : AdjacencyMatrixGraph V W) (vs0 : List V) :
    Option GraphError × AdjacencyMatrixGraph V W :=
  let vs := sdedup vs0
  if vs.any (fun v => lmem v g.vertices) then (some .duplicateVertex, g)
  else
    let vertices2 := g.vertices ++ vs
    let n := vertices2.length
    let vertex_indices2 := assignFrom g.vertex_indices vs n
    let m := n + vs.length
    (none, { g with
             vertices := vertices2
             vertex_indices := vertex_indices2
             adjacency_matrix :=
               (g.adjacency_matrix.map (fun row => row ++ List.replicate m none))
                 ++ [List.replicate m none] ++ List.replicate (m - 1) [] })

/-- AdjacencyMatrixGraph::set_edge_weight: resolves both indices (throwing
UnknownVertex when an endpoint is absent), writes the weight into the
edge_weights slot for that index pair, and points the matrix cell at the
slot; mirrored for the transposed pair when undirected. -/
def set_edge_weight (g : AdjacencyMatrixGraph V W) (u v : V) (w : W) :
    Option GraphError × AdjacencyMatrixGraph V W :=
  match get_vertex_int g u with
  | .err e => (some e, g)
  | .ok ui =>
    match get_vertex_int g v with
    | .err e => (some e, g)
    | .ok vi =>
      let ew1 := alSet g.edge_weights (ui, vi) w
      let am1 := setCell g.adjacency_matrix ui vi (some (ui, vi))
      if g.directed then
        (none, { g with edge_weights := ew1, adjacency_matrix := am1 })
      else
        (none, { g with
                 edge_weights := alSet ew1 (vi, ui) w
                 adjacency_matrix := setCell am1 vi ui (some (vi, ui)) })

/-- AdjacencyMatrixGraph::remove_edge: resolves both indices (throwing
UnknownVertex when an endpoint is absent).  When the cell is null it only
prints a warning to stderr — no failure is reported and nothing changes.
Otherwise the slot for the index pair is erased and the cell nulled,
mirrored when undirected. -/
def remove_edge (g : AdjacencyMatrixGraph V W) (u v : V) :
    Option GraphError × AdjacencyMatrixGraph V W :=
  match get_vertex_int g u with
  | .err e => (some e, g)
  | .ok ui =>
    match get_vertex_int g v with
    | .err e => (some e, g)
    | .ok vi =>
      if (cellAt g.adjacency_matrix ui vi).isNone then (none, g)
      else
        let ew1 := alErase g.edge_weights (ui, vi)
        let am1 := setCell g.adjacency_matrix ui vi none
        if g.directed then
          (none, { g with edge_weights := ew1, adjacency_matrix := am1 })
        else
          (none, { g with
                   edge_weights := alErase ew1 (vi, ui)
                   adjacency_matrix := setCell am1 vi ui none })

/-- AdjacencyMatrixGraph::has_edge: resolves both indices — get_vertex_int
throws UnknownVertex when a vertex is absent, although the method's own
comment promises false in that case — then tests the cell for null. -/
def has_edge (g : AdjacencyMatrixGraph V W) (u v : V) : GraphResult Bool :=
  match get_vertex_int g u with
  | .err e => .err e
  | .ok ui =>
    match get_vertex_int g v with
    | .err e => .err e
    | .ok vi => .ok (cellAt g.adjacency_matrix ui vi).isSome

/-- The set of vertices whose column cell in row vi is non-null: the
get_children scan. -/
def childVertices (g : AdjacencyMatrixGraph V W) (vi : Nat) : List V :=
  sdedup (((withIdx V 0 g.vertices).filter
    (fun p => (cellAt g.adjacency_matrix vi p.1).isSome)).map Prod.snd)

/-- The set of vertices whose row cell in column vi is non-null: the
get_parents scan. -/
def parentVertices (g : AdjacencyMatrixGraph V W) (vi : Nat) : List V :=
  sdedup (((withIdx V 0 g.vertices).filter
    (fun p => (cellAt g.adjacency_matrix p.1 vi).isSome)).map Prod.snd)

/-- AdjacencyMatrixGraph::get_children: full row scan. -/
def get_children (g : AdjacencyMatrixGraph V W) (v : V) :
    GraphResult (List V) :=
  match get_vertex_int g v with
  | .err e => .err e
  | .ok vi => .ok (childVertices g vi)

/-- AdjacencyMatrixGraph::get_parents: full column scan. -/
def get_parents (g : AdjacencyMatrixGraph V W) (v : V) :
    GraphResult (List V) :=
  match get_vertex_int g v with
  | .err e => .err e
  | .ok vi => .ok (parentVertices g vi)

/-- AdjacencyMatrixGraph::remove_vertex: erases the edge_weights slots of
the removed vertex's current children and parents, deletes row and column
v_index (the column loop runs up to the not-yet-shrunk vertex count, so
its last iteration indexes one past the final row — undefined behaviour in
C++, modelled as erasing the column only from the rows that exist), and
finally erases the vertex and its index entry.  The indices of the
vertices behind the removed one and the keys of their edge_weights slots
are left as they were. -/
def remove_vertex (g : AdjacencyMatrixGraph V W) (v : V) :
    Option GraphError × AdjacencyMatrixGraph V W :=
  match get_vertex_int g v with
  | .err e => (some e, g)
  | .ok vi =>
    let cs := childVertices g vi
    let ew1 :=
      if g.directed then
        let ewc := cs.foldl (fun ew c => alErase ew (vi, idxD g c)) g.edge_weights
        (parentVertices g vi).foldl (fun ew p => alErase ew (idxD g p, vi)) ewc
      else
        cs.foldl (fun ew c => alErase (alErase ew (vi, idxD g c)) (idxD g c, vi))
          g.edge_weights
    (none, { g with
             edge_weights := ew1
             adjacency_matrix :=
               (lEraseIdx g.adjacency_matrix vi).map (fun row => lEraseIdx row vi)
             vertices := lerase g.vertices v
             vertex_indices := alErase g.vertex_indices v })

/-- The invariant of the spec's data model: a matrix cell is non-empty
exactly when the weight store holds an entry for that cell's row/column
pair, and every stored pair points back to a non-empty cell. -/
def cellStoreOK (g : AdjacencyMatrixGraph V W) : Bool :=
  ((List.range g.adjacency_matrix.length).all (fun i =>
    (List.range (lgetD g.adjacency_matrix i []).length).all (fun j =>
      (cellAt g.adjacency_matrix i j).isSome
        == (alGet g.edge_weights (i, j)).isSome)))
  && g.edge_weights.all (fun e => (cellAt g.adjacency_matrix e.1.1 e.1.2).isSome)

/-- The matrix is square with the vertex count as its dimension. -/
def isSquare (g : AdjacencyMatrixGraph V W) : Bool :=
  g.adjacency_matrix.length == g.vertices.length
    && g.adjacency_matrix.all (fun row => row.length == g.vertices.length)

/-- Cell symmetry up to the vertex count: the non-nullness of cell (i, j)
and of cell (j, i) agree (the undirected invariant). -/
def symB (g : AdjacencyMatrixGraph V W) : Bool :=
  (List.range g.vertices.length).all (fun i =>
    (List.range g.vertices.length).all (fun j =>
      (cellAt g.adjacency_matrix i j).isSome
        == (cellAt g.adjacency_matrix j i).isSome))

end AdjacencyMatrixGraph

/-! Concrete graphs (vertices are natural numbers, weights are integers)
used to exhibit the behaviour of the operations at specific inputs. -/

/-- Unweighted directed list graph on vertices 0 and 1. -/
def exC1 : AdjacencyListGraphBool Nat := AdjacencyListGraphBool.mkGraph true [0, 1]

/-- exC1 after set_edge_weight(0, 1, true) and then set_edge_weight(0, 1, false). -/
def exC1' : AdjacencyListGraphBool Nat :=
  (AdjacencyListGraphBool.set_edge_weight
    ((AdjacencyListGraphBool.set_edge_weight exC1 0 1 true).2) 0 1 false).2

/-- Weighted directed list graph on vertices 0 and 1. -/
def wC1w : AdjacencyListGraph Nat Int := AdjacencyListGraph.mkGraph true [0, 1]

/-- Unweighted undirected list graph on vertices 0 and 1. -/
def wC1b : AdjacencyListGraphBool Nat := AdjacencyListGraphBool.mkGraph false [0, 1]

/-- Undirected matrix graph on vertices 0 and 1. -/
def wC1m : AdjacencyMatrixGraph Nat Int := AdjacencyMatrixGraph.mkGraph false [0, 1]

/-- Weighted directed list graph on 0 and 1 with edge (0, 1, 5), after
remove_vertex(1). -/
def exC2 : AdjacencyListGraph Nat Int :=
  (AdjacencyListGraph.remove_vertex
    ((AdjacencyListGraph.set_edge_weight
      (AdjacencyListGraph.mkGraph true [0, 1]) 0 1 5).2) 1).2

/-- Directed matrix graph on the single vertex 0. -/
def exC3m : AdjacencyMatrixGraph Nat Int := AdjacencyMatrixGraph.mkGraph true [0]

/-- Weighted directed list graph on the single vertex 0. -/
def exC3w : AdjacencyListGraph Nat Int := AdjacencyListGraph.mkGraph true [0]

/-- Unweighted directed list graph on the single vertex 0. -/
def exC3b : AdjacencyListGraphBool Nat := AdjacencyListGraphBool.mkGraph true [0]

/-- Directed matrix graph on vertices 0 and 1 with no edges. -/
def exC4 : AdjacencyMatrixGraph Nat Int := AdjacencyMatrixGraph.mkGraph true [0, 1]

/-- Weighted directed list graph on vertices 2 and 3 with no edges. -/
def wC4w : AdjacencyListGraph Nat Int := AdjacencyListGraph.mkGraph true [2, 3]

/-- Unweighted directed list graph on vertices 2 and 3 with no edges. -/
def wC4b : AdjacencyListGraphBool Nat := AdjacencyListGraphBool.mkGraph true [2, 3]

/-- Directed matrix graph on vertices 2 and 3 with no edges. -/
def wC4m : AdjacencyMatrixGraph Nat Int := AdjacencyMatrixGraph.mkGraph true [2, 3]

/-- Directed matrix graph on 10, 11, 12 with edge (11, 12, 5). -/
def exC5 : AdjacencyMatrixGraph Nat Int :=
  (AdjacencyMatrixGraph.set_edge_weight
    (AdjacencyMatrixGraph.mkGraph true [10, 11, 12]) 11 12 5).2

/-- exC5 after remove_vertex(10): the remaining vertices shift down one
index. -/
def exC5' : AdjacencyMatrixGraph Nat Int :=
  (AdjacencyMatrixGraph.remove_vertex exC5 10).2

/-- Directed matrix graph on the single vertex 0. -/
def exC6 : AdjacencyMatrixGraph Nat Int := AdjacencyMatrixGraph.mkGraph true [0]

/-- Weighted undirected list graph with the self-loop (0, 0, 1). -/
def exC7 : AdjacencyListGraph Nat Int :=
  (AdjacencyListGraph.set_edge_weight
    (AdjacencyListGraph.mkGraph false [0]) 0 0 1).2

/-- Weighted undirected list graph on 0 and 1 with edge (0, 1, 7). -/
def wC7w : AdjacencyListGraph Nat Int :=
  (AdjacencyListGraph.set_edge_weight
    (AdjacencyListGraph.mkGraph false [0, 1]) 0 1 7).2

/-- Unweighted undirected list graph on 0 and 1 with edge (0, 1). -/
def wC7b : AdjacencyListGraphBool Nat :=
  (AdjacencyListGraphBool.set_edge_weight
    (AdjacencyListGraphBool.mkGraph false [0, 1]) 0 1 true).2

/-- Undirected matrix graph on 0 and 1 with edge (0, 1, 7). -/
def wC7m : AdjacencyMatrixGraph Nat Int :=
  (AdjacencyMatrixGraph.set_edge_weight
    (AdjacencyMatrixGraph.mkGraph false [0, 1]) 0 1 7).2

/-- Weighted directed list graph on the single vertex 0. -/
def wC8w : AdjacencyListGraph Nat Int := AdjacencyListGraph.mkGraph true [0]

/-- Unweighted directed list graph on the single vertex 0. -/
def wC8b : AdjacencyListGraphBool Nat := AdjacencyListGraphBool.mkGraph true [0]

/-- Directed matrix graph on the single vertex 0. -/
def wC8m : AdjacencyMatrixGraph Nat Int := AdjacencyMatrixGraph.mkGraph true [0]

/-- Unweighted directed list graph with no vertices at all. -/
def exC9 : AdjacencyListGraphBool Nat := AdjacencyListGraphBool.mkGraph true []

/-- Weighted directed list graph on vertices 0 and 1. -/
def wC9w : AdjacencyListGraph Nat Int := AdjacencyListGraph.mkGraph true [0, 1]

/-- Unweighted directed list graph on vertices 0 and 1. -/
def wC9b : AdjacencyListGraphBool Nat := AdjacencyListGraphBool.mkGraph true [0, 1]

/-- Unweighted directed list graph on the single vertex 0. -/
def exC10 : AdjacencyListGraphBool Nat := AdjacencyListGraphBool.mkGraph true [0]

/-- Unweighted directed list graph on the single vertex 5. -/
def wC10 : AdjacencyListGraphBool Nat := AdjacencyListGraphBool.mkGraph true [5]

section HelperLemmas

variable {V : Type} [DecidableEq V] {A W : Type}

theorem lmem_iff {v : V} {l : List V} : lmem v l = true ↔ v ∈ l := by
  induction l with
  | nil => simp [lmem]
  | cons x rest ih =>
    by_cases h : x = v
    · subst h; simp [lmem]
    · simp [lmem, h, ih, Ne.symm h]

theorem lmem_append {v : V} {l1 l2 : List V} :
    lmem v (l1 ++ l2) = (lmem v l1 || lmem v l2) := by
  induction l1 with
  | nil => simp [lmem]
  | cons x rest ih =>
    by_cases h : x = v <;> simp [lmem, h, ih]

theorem lmem_lerase_self {v : V} {l : List V} : lmem v (lerase l v) = false := by
  induction l with
  | nil => simp [lerase, lmem]
  | cons x rest ih =>
    by_cases h : x = v
    · simpa [lerase, h] using ih
    · simpa [lerase, lmem, h] using ih

theorem lmem_sinsert_self {v : V} {l : List V} : lmem v (sinsert l v) = true := by
  unfold sinsert
  by_cases h : lmem v l
  · simp [h]
  · simp [h, lmem_append, lmem]

theorem lmem_sdedup {v : V} {l : List V} : lmem v (sdedup l) = lmem v l := by
  induction l with
  | nil => rfl
  | cons x rest ih =>
    by_cases hx : x = v
    · subst hx
      by_cases h : lmem x rest
      · simp [sdedup, h, lmem, ih]
      · simp [sdedup, h, lmem]
    · by_cases h : lmem x rest
      · simp [sdedup, h, lmem, hx, ih]
      · simp [sdedup, h, lmem, hx, ih]

theorem alGet_alSet_self {m : List (V × A)} {k : V} {a : A} :
    alGet (alSet m k a) k = some a := by
  induction m with
  | nil => simp [alSet, alGet]
  | cons p rest ih =>
    by_cases h : p.1 = k
    · simp [alSet, h, alGet]
    · simp [alSet, h, alGet, ih]

theorem alGet_alSet_ne {m : List (V × A)} {k j : V} {a : A} (h : k ≠ j) :
    alGet (alSet m k a) j = alGet m j := by
  induction m with
  | nil => simp [alSet, alGet, h]
  | cons p rest ih =>
    by_cases hp : p.1 = k
    · simp [alSet, hp, alGet, h]
    · simp [alSet, hp, alGet, ih]

theorem alGet_append_some {m m2 : List (V × A)} {k : V} {a : A}
    (h : alGet m k = some a) : alGet (m ++ m2) k = some a := by
  induction m with
  | nil => simp [alGet] at h
  | cons p rest ih =>
    by_cases hp : p.1 = k
    · simp [alGet, hp] at h ⊢; exact h
    · simp [alGet, hp] at h ⊢; exact ih h

theorem alGet_append_none {m m2 : List (V × A)} {k : V}
    (h : alGet m k = none) : alGet (m ++ m2) k = alGet m2 k := by
  induction m with
  | nil => simp [alGet]
  | cons p rest ih =>
    by_cases hp : p.1 = k
    · simp [alGet, hp] at h
    · simp [alGet, hp] at h ⊢; exact ih h

theorem alGet_mem {m : List (V × A)} {k : V} {a : A}
    (h : alGet m k = some a) : (k, a) ∈ m := by
  induction m with
  | nil => simp [alGet] at h
  | cons p rest ih =>
    by_cases hp : p.1 = k
    · simp [alGet, hp] at h
      have hpa : p = (k, a) := by
        cases p with
        | mk k' a' => simp_all
      rw [← hpa]
      exact List.mem_cons_self p rest
    · simp [alGet, hp] at h
      exact List.mem_cons_of_mem _ (ih h)

theorem findWeight_eq_alGet {l : List (V × W)} {v : V} :
    findWeight l v = alGet l v := by
  induction l with
  | nil => rfl
  | cons p rest ih =>
    by_cases hp : p.1 = v
    · cases p; simp_all [findWeight, alGet]
    · cases p; simp_all [findWeight, alGet]

theorem findWeight_append_none {l1 l2 : List (V × W)} {v : V}
    (h : findWeight l1 v = none) :
    findWeight (l1 ++ l2) v = findWeight l2 v := by
  simp only [findWeight_eq_alGet] at *
  exact alGet_append_none h

theorem findWeight_eraseFirstKey_self {l : List (V × W)} {v : V}
    (h : nodupKeysB l = true) : findWeight (eraseFirstKey l v) v = none := by
  induction l with
  | nil => rfl
  | cons p rest ih =>
    cases p with
    | mk x w =>
      simp only [nodupKeysB, Bool.and_eq_true, Bool.not_eq_true'] at h
      by_cases hx : x = v
      · subst hx
        have h1 := h.1
        cases hrest : findWeight rest x with
        | none => simpa [eraseFirstKey] using hrest
        | some b => rw [hrest] at h1; simp at h1
      · simp [eraseFirstKey, hx, findWeight, ih h.2]

theorem eraseFirstKey_append_single {l : List (V × W)} {v : V} {w : W}
    (h : findWeight l v = none) : eraseFirstKey (l ++ [(v, w)]) v = l := by
  induction l with
  | nil => simp [eraseFirstKey]
  | cons p rest ih =>
    cases p with
    | mk x b =>
      by_cases hx : x = v
      · simp [findWeight, hx] at h
      · simp only [findWeight, if_neg hx] at h
        simp [eraseFirstKey, hx, ih h]

theorem findWeight_setPair_self {l : List (V × W)} {v : V} {w : W}
    (h : nodupKeysB l = true) :
    findWeight (AdjacencyListGraph.setPair l v w) v = some w := by
  unfold AdjacencyListGraph.setPair
  rw [findWeight_append_none (findWeight_eraseFirstKey_self h)]
  simp [findWeight]

theorem findWeight_isSome_iff_mem_map {l : List (V × W)} {v : V} :
    (findWeight l v).isSome = true ↔ v ∈ l.map Prod.fst := by
  induction l with
  | nil => simp [findWeight]
  | cons p rest ih =>
    cases p with
    | mk x w =>
      by_cases hx : x = v
      · subst hx; simp [findWeight]
      · simp [findWeight, hx, ih, Ne.symm hx]

theorem nodupKeysB_alGetD {m : List (V × List (V × W))} {u : V}
    (h : m.all (fun p => nodupKeysB p.2) = true) :
    nodupKeysB (alGetD m u []) = true := by
  unfold alGetD
  cases hu : alGet m u with
  | none => rfl
  | some l =>
    have := List.all_eq_true.mp h _ (alGet_mem hu)
    simpa using this

theorem alGetIns_of_isSome {m : List (V × A)} {k : V} {d a : A}
    (h : alGet m k = some a) : alGetIns m k d = (a, m) := by
  simp [alGetIns, h]

theorem alGetIns_of_none {m : List (V × A)} {k : V} {d : A}
    (h : alGet m k = none) : alGetIns m k d = (d, m ++ [(k, d)]) := by
  simp [alGetIns, h]

theorem alGet_alGetIns_snd_self {m : List (V × A)} {k : V} {d : A} :
    alGet (alGetIns m k d).2 k = some (alGetIns m k d).1 := by
  cases h : alGet m k with
  | some a => simp [alGetIns_of_isSome h, h]
  | none =>
    rw [alGetIns_of_none h]
    simp [alGet_append_none h, alGet]

theorem alGet_alGetIns_snd_ne {m : List (V × A)} {k j : V} {d : A}
    (h : k ≠ j) : alGet (alGetIns m k d).2 j = alGet m j := by
  cases hk : alGet m k with
  | some a => simp [alGetIns_of_isSome hk]
  | none =>
    rw [alGetIns_of_none hk]
    cases hj : alGet m j with
    | some b => simp [alGet_append_some hj]
    | none => simp [alGet_append_none hj, alGet, h]

theorem lset_oob {l : List A} {i : Nat} {a : A} (h : ¬ i < l.length) :
    lset l i a = l := by
  induction l generalizing i with
  | nil => rfl
  | cons x rest ih =>
    cases i with
    | zero => simp at h
    | succ n =>
      simp only [List.length_cons, Nat.succ_lt_succ_iff] at h
      simp [lset, ih h]

theorem lset_length {l : List A} {i : Nat} {a : A} :
    (lset l i a).length = l.length := by
  induction l generalizing i with
  | nil => rfl
  | cons x rest ih =>
    cases i with
    | zero => simp [lset]
    | succ n => simp [lset, ih]

theorem lgetD_lset_self {l : List A} {i : Nat} {a d : A} (h : i < l.length) :
    lgetD (lset l i a) i d = a := by
  induction l generalizing i with
  | nil => simp at h
  | cons x rest ih =>
    cases i with
    | zero => rfl
    | succ n =>
      simp only [List.length_cons, Nat.succ_lt_succ_iff] at h
      simpa [lset, lgetD] using ih h

theorem lgetD_lset_ne {l : List A} {i j : Nat} {a d : A} (h : i ≠ j) :
    lgetD (lset l i a) j d = lgetD l j d := by
  induction l generalizing i j with
  | nil => rfl
  | cons x rest ih =>
    cases i with
    | zero =>
      cases j with
      | zero => exact absurd rfl h
      | succ n => simp [lset, lgetD]
    | succ n =>
      cases j with
      | zero => simp [lset, lgetD]
      | succ k =>
        have : n ≠ k := by omega
        simpa [lset, lgetD] using ih this

theorem mem_withIdx_lt {l : List A} {s : Nat} {p : Nat × A}
    (h : p ∈ withIdx A s l) : p.1 < s + l.length := by
  induction l generalizing s with
  | nil => simp [withIdx] at h
  | cons x rest ih =>
    simp only [withIdx, List.mem_cons] at h
    rcases h with h | h
    · subst h; simp
    · have := ih h
      simp only [List.length_cons]
      omega

theorem filter_congr_of_mem {p q : A → Bool} :
    ∀ {l : List A}, (∀ x ∈ l, p x = q x) → l.filter p = l.filter q := by
  intro l
  induction l with
  | nil => intro _; rfl
  | cons x rest ih =>
    intro h
    have hx := h x (List.mem_cons_self x rest)
    have hr := ih (fun y hy => h y (List.mem_cons_of_mem _ hy))
    simp [List.filter, hx, hr]

theorem alGetIns_fst {m : List (V × A)} {k : V} {d : A} :
    (alGetIns m k d).1 = alGetD m k d := by
  cases h : alGet m k with
  | some a => simp [alGetIns_of_isSome h, alGetD, h]
  | none => simp [alGetIns_of_none h, alGetD, h]

theorem findWeight_isSome_of_mem {l : List (V × W)} {k : V} {a : W}
    (h : (k, a) ∈ l) : (findWeight l k).isSome = true := by
  rw [findWeight_isSome_iff_mem_map]
  exact List.mem_map.mpr ⟨(k, a), h, rfl⟩

theorem alGet_of_mem_nodupKeys {m : List (V × A)} {k : V} {a : A}
    (h : (k, a) ∈ m) (hn : nodupKeysB m = true) : alGet m k = some a := by
  induction m with
  | nil => simp at h
  | cons p rest ih =>
    cases p with
    | mk x b =>
      simp only [nodupKeysB, Bool.and_eq_true, Bool.not_eq_true'] at hn
      rcases List.mem_cons.mp h with h | h
      · cases h
        simp [alGet]
      · by_cases hx : x = k
        · subst hx
          have := findWeight_isSome_of_mem h
          rw [findWeight_eq_alGet] at this
          rw [findWeight_eq_alGet, this] at hn
          simp at hn
        · simp [alGet, hx, ih h hn.2]

theorem isSome_false_eq_none {o : Option A} (h : o.isSome = false) : o = none := by
  cases o with
  | none => rfl
  | some a => simp at h

theorem findWeight_eraseFirstKey_isSome_mono {l : List (V × W)} {v x : V}
    (h : (findWeight (eraseFirstKey l v) x).isSome = true) :
    (findWeight l x).isSome = true := by
  induction l with
  | nil => simpa [eraseFirstKey] using h
  | cons p rest ih =>
    cases p with
    | mk y w =>
      by_cases hy : y = v
      · subst hy
        simp only [eraseFirstKey, if_pos rfl, if_true] at h
        by_cases hx : y = x
        · simp [findWeight, hx]
        · simp only [findWeight, if_neg hx]
          exact h
      · simp only [eraseFirstKey, if_neg hy] at h
        by_cases hx : y = x
        · simp [findWeight, hx]
        · simp only [findWeight, if_neg hx] at h ⊢
          exact ih h

theorem nodupKeysB_eraseFirstKey {l : List (V × W)} {v : V}
    (h : nodupKeysB l = true) : nodupKeysB (eraseFirstKey l v) = true := by
  induction l with
  | nil => rfl
  | cons p rest ih =>
    cases p with
    | mk x w =>
      simp only [nodupKeysB, Bool.and_eq_true, Bool.not_eq_true'] at h
      by_cases hx : x = v
      · simpa [eraseFirstKey, hx] using h.2
      · simp only [eraseFirstKey, if_neg hx, nodupKeysB, Bool.and_eq_true,
          Bool.not_eq_true']
        refine ⟨?_, ih h.2⟩
        cases hfw : (findWeight (eraseFirstKey rest v) x).isSome with
        | false => rfl
        | true =>
          have := findWeight_eraseFirstKey_isSome_mono hfw
          rw [this] at h
          simp at h

theorem nodupKeysB_append_single {l : List (V × W)} {v : V} {w : W}
    (h : nodupKeysB l = true) (hv : findWeight l v = none) :
    nodupKeysB (l ++ [(v, w)]) = true := by
  induction l with
  | nil => simp [nodupKeysB, findWeight]
  | cons p rest ih =>
    cases p with
    | mk x b =>
      simp only [nodupKeysB, Bool.and_eq_true, Bool.not_eq_true'] at h
      by_cases hx : x = v
      · simp [findWeight, hx] at hv
      · simp only [findWeight, if_neg hx] at hv
        have hstep : ((x, b) :: rest) ++ [(v, w)] = (x, b) :: (rest ++ [(v, w)]) := rfl
        rw [hstep]
        simp only [nodupKeysB, Bool.and_eq_true, Bool.not_eq_true']
        refine ⟨?_, ih h.2 hv⟩
        have hne : ¬ v = x := fun hvx => hx hvx.symm
        rw [findWeight_append_none (isSome_false_eq_none h.1)]
        simp [findWeight, hne]

theorem nodupKeysB_setPair {l : List (V × W)} {v : V} {w : W}
    (h : nodupKeysB l = true) :
    nodupKeysB (AdjacencyListGraph.setPair l v w) = true :=
  nodupKeysB_append_single (nodupKeysB_eraseFirstKey h)
    (findWeight_eraseFirstKey_self h)

theorem setCell_length {am : List (List (Option (Nat × Nat)))} {i j : Nat}
    {c : Option (Nat × Nat)} :
    (AdjacencyMatrixGraph.setCell am i j c).length = am.length :=
  lset_length

theorem cellAt_setCell_self {am : List (List (Option (Nat × Nat)))} {i j : Nat}
    {c : Option (Nat × Nat)} (hi : i < am.length)
    (hj : j < (lgetD am i []).length) :
    AdjacencyMatrixGraph.cellAt (AdjacencyMatrixGraph.setCell am i j c) i j = c := by
  unfold AdjacencyMatrixGraph.cellAt AdjacencyMatrixGraph.setCell
  rw [lgetD_lset_self hi, lgetD_lset_self hj]

theorem cellAt_setCell_row_ne {am : List (List (Option (Nat × Nat)))}
    {a b i j : Nat} {c : Option (Nat × Nat)} (h : a ≠ i) :
    AdjacencyMatrixGraph.cellAt (AdjacencyMatrixGraph.setCell am a b c) i j
      = AdjacencyMatrixGraph.cellAt am i j := by
  unfold AdjacencyMatrixGraph.cellAt AdjacencyMatrixGraph.setCell
  rw [lgetD_lset_ne h]

theorem cellAt_setCell_col_ne {am : List (List (Option (Nat × Nat)))}
    {a b j : Nat} {c : Option (Nat × Nat)} (h : b ≠ j) :
    AdjacencyMatrixGraph.cellAt (AdjacencyMatrixGraph.setCell am a b c) a j
      = AdjacencyMatrixGraph.cellAt am a j := by
  unfold AdjacencyMatrixGraph.cellAt AdjacencyMatrixGraph.setCell
  by_cases ha : a < am.length
  · rw [lgetD_lset_self ha, lgetD_lset_ne h]
  · rw [lset_oob ha]

theorem lgetD_setCell_row_length {am : List (List (Option (Nat × Nat)))}
    {i j : Nat} {c : Option (Nat × Nat)} (hi : i < am.length) :
    (lgetD (AdjacencyMatrixGraph.setCell am i j c) i []).length
      = (lgetD am i []).length := by
  unfold AdjacencyMatrixGraph.setCell
  rw [lgetD_lset_self hi, lset_length]

end HelperLemmas

namespace AdjacencyListGraph

variable {V W : Type} [DecidableEq V]

theorem set_edge_weight_spec_w (g : AdjacencyListGraph V W) (u v : V) (w : W)
    (h1 : g.has_vertex u = true) (h2 : g.has_vertex v = true)
    (h3 : g.neighborKeysNodup = true) :
    (g.set_edge_weight u v w).1 = none ∧
    (g.set_edge_weight u v w).2.vertices = g.vertices ∧
    ∃ L, alGet (g.set_edge_weight u v w).2.adjacency_list u = some L ∧
      findWeight L v = some w := by
  have h3' : g.adjacency_list.all (fun p => nodupKeysB p.2) = true := h3
  have hnod : nodupKeysB (alGetD g.adjacency_list u []) = true :=
    nodupKeysB_alGetD h3'
  by_cases hd : g.directed = true
  · simp only [set_edge_weight, h1, h2, hd, Bool.not_true, Bool.or_self,
      Bool.false_eq_true, if_false, if_true]
    refine ⟨trivial, trivial, _, alGet_alSet_self, ?_⟩
    rw [alGetIns_fst]
    exact findWeight_setPair_self hnod
  · have hd' : g.directed = false := by
      cases h : g.directed with
      | true => exact absurd h hd
      | false => rfl
    by_cases huv : u = v
    · subst huv
      simp only [set_edge_weight, h1, h2, hd', Bool.not_true, Bool.or_self,
        Bool.false_eq_true, if_false]
      rw [alGetIns_of_isSome (alGet_alSet_self (m := (alGetIns g.adjacency_list u []).2)
        (k := u) (a := setPair (alGetIns g.adjacency_list u []).1 u w))]
      refine ⟨trivial, trivial, _, alGet_alSet_self, ?_⟩
      refine findWeight_setPair_self ?_
      refine nodupKeysB_setPair ?_
      rw [alGetIns_fst]
      exact hnod
    · simp only [set_edge_weight, h1, h2, hd', Bool.not_true, Bool.or_self,
        Bool.false_eq_true, if_false]
      rw [alGet_alSet_ne (fun e => huv e.symm),
        alGet_alGetIns_snd_ne (fun e => huv e.symm)]
      exact ⟨trivial, trivial, _, alGet_alSet_self,
        by rw [alGetIns_fst]; exact findWeight_setPair_self hnod⟩

theorem set_then_query_w (g : AdjacencyListGraph V W) (u v : V) (w : W)
    (h1 : g.has_vertex u = true) (h2 : g.has_vertex v = true)
    (h3 : g.neighborKeysNodup = true) :
    (g.set_edge_weight u v w).1 = none ∧
    ((g.set_edge_weight u v w).2.has_edge u v).1 = true ∧
    ((g.set_edge_weight u v w).2.get_edge_weight u v).1 = GraphResult.ok w := by
  obtain ⟨he, hvt, L, hL, hfw⟩ := set_edge_weight_spec_w g u v w h1 h2 h3
  have hu : (g.set_edge_weight u v w).2.has_vertex u = true := by
    unfold has_vertex
    rw [hvt]
    exact h1
  have hv : (g.set_edge_weight u v w).2.has_vertex v = true := by
    unfold has_vertex
    rw [hvt]
    exact h2
  refine ⟨he, ?_, ?_⟩
  · simp only [has_edge, hu, hv, Bool.not_true, Bool.or_self,
      Bool.false_eq_true, if_false]
    rw [alGetIns_of_isSome hL]
    simp [hfw]
  · simp only [get_edge_weight]
    rw [alGetIns_of_isSome hL]
    simp [hfw]

end AdjacencyListGraph

namespace AdjacencyListGraphBool

variable {V : Type} [DecidableEq V]

theorem set_edge_weight_spec_b (g : AdjacencyListGraphBool V) (u v : V) (bw : Bool)
    (h1 : g.has_vertex u = true) (h2 : g.has_vertex v = true) :
    (g.set_edge_weight u v bw).1 = none ∧
    (g.set_edge_weight u v bw).2.vertices = g.vertices ∧
    ∃ S, alGet (g.set_edge_weight u v bw).2.adjacency_list u = some S ∧
      lmem v S = bw := by
  cases bw with
  | true =>
    by_cases hd : g.directed = true
    · simp only [set_edge_weight, h1, h2, hd, Bool.not_true, Bool.or_self,
        Bool.false_eq_true, if_false, if_true]
      exact ⟨trivial, trivial, _, alGet_alSet_self, lmem_sinsert_self⟩
    · have hd' : g.directed = false := by
        cases h : g.directed with
        | true => exact absurd h hd
        | false => rfl
      by_cases huv : u = v
      · subst huv
        simp only [set_edge_weight, h1, h2, hd', Bool.not_true, Bool.or_self,
          Bool.false_eq_true, if_false, if_true]
        rw [alGetIns_of_isSome (alGet_alSet_self
          (m := (alGetIns g.adjacency_list u []).2) (k := u)
          (a := sinsert (alGetIns g.adjacency_list u []).1 u))]
        exact ⟨trivial, trivial, _, alGet_alSet_self, lmem_sinsert_self⟩
      · simp only [set_edge_weight, h1, h2, hd', Bool.not_true, Bool.or_self,
          Bool.false_eq_true, if_false, if_true]
        rw [alGet_alSet_ne (fun e => huv e.symm),
          alGet_alGetIns_snd_ne (fun e => huv e.symm)]
        exact ⟨trivial, trivial, _, alGet_alSet_self, lmem_sinsert_self⟩
  | false =>
    simp only [set_edge_weight, h1, h2, Bool.not_true, Bool.or_self,
      Bool.false_eq_true, if_false]
    unfold remove_edge has_edge
    cases hq : lmem v (alGetIns g.adjacency_list u []).1 with
    | false =>
      simp only [hq, Bool.not_false, if_true]
      exact ⟨trivial, trivial, _, alGet_alGetIns_snd_self,
        by rw [hq]⟩
    | true =>
      simp only [hq, Bool.not_true, Bool.false_eq_true, if_false]
      rw [alGetIns_of_isSome (alGet_alGetIns_snd_self
        (m := g.adjacency_list) (k := u) (d := []))]
      by_cases hd : g.directed = true
      · simp only [hd, if_true]
        exact ⟨trivial, trivial, _, alGet_alSet_self, lmem_lerase_self⟩
      · have hd' : g.directed = false := by
          cases h : g.directed with
          | true => exact absurd h hd
          | false => rfl
        by_cases huv : u = v
        · subst huv
          simp only [hd', Bool.false_eq_true, if_false]
          rw [alGetIns_of_isSome (alGet_alSet_self
            (m := (alGetIns g.adjacency_list u []).2) (k := u)
            (a := lerase (alGetIns g.adjacency_list u []).1 u))]
          exact ⟨trivial, trivial, _, alGet_alSet_self, lmem_lerase_self⟩
        · simp only [hd', Bool.false_eq_true, if_false]
          rw [alGet_alSet_ne (fun e => huv e.symm),
            alGet_alGetIns_snd_ne (fun e => huv e.symm)]
          exact ⟨trivial, trivial, _, alGet_alSet_self, lmem_lerase_self⟩

theorem set_then_query_b (g : AdjacencyListGraphBool V) (u v : V) (bw : Bool)
    (h1 : g.has_vertex u = true) (h2 : g.has_vertex v = true) :
    (g.set_edge_weight u v bw).1 = none ∧
    ((g.set_edge_weight u v bw).2.has_edge u v).1 = bw ∧
    ((g.set_edge_weight u v bw).2.get_edge_weight u v).1 = GraphResult.ok bw := by
  obtain ⟨he, hvt, S, hS, hmem⟩ := set_edge_weight_spec_b g u v bw h1 h2
  have hedge : (g.set_edge_weight u v bw).2.has_edge u v
      = (bw, (g.set_edge_weight u v bw).2) := by
    unfold has_edge
    rw [alGetIns_of_isSome hS]
    simp [hmem]
  have hu : (g.set_edge_weight u v bw).2.has_vertex u = true := by
    unfold has_vertex
    rw [hvt]
    exact h1
  have hv : (g.set_edge_weight u v bw).2.has_vertex v = true := by
    unfold has_vertex
    rw [hvt]
    exact h2
  refine ⟨he, by rw [hedge], ?_⟩
  simp only [get_edge_weight, hu, hv, Bool.not_true, Bool.or_self,
    Bool.false_eq_true, if_false]
  rw [hedge]

end AdjacencyListGraphBool

/-- From the key invariant of a backend (every vertex has a map entry),
produce the entry of a given vertex. -/
theorem wf_entry {V : Type} [DecidableEq V] {A : Type} {vs : List V}
    {m : List (V × A)} {u : V}
    (hwf : vs.all (fun v => (alGet m v).isSome) = true)
    (hu : lmem u vs = true) : ∃ a, alGet m u = some a := by
  have h := List.all_eq_true.mp hwf u (lmem_iff.mp hu)
  simp only at h
  exact Option.isSome_iff_exists.mp h

namespace AdjacencyListGraph

variable {V W : Type} [DecidableEq V]

theorem has_edge_state_w (g : AdjacencyListGraph V W) (u v : V)
    (hwf : g.wfKeys = true) : (g.has_edge u v).2 = g := by
  unfold has_edge
  by_cases hg : (!(g.has_vertex u) || !(g.has_vertex v)) = true
  · rw [if_pos hg]
  · rw [if_neg hg]
    have h1 : g.has_vertex u = true := by
      cases h : g.has_vertex u with
      | true => rfl
      | false => exact absurd (by rw [h]; rfl) hg
    obtain ⟨a, ha⟩ := wf_entry hwf h1
    rw [alGetIns_of_isSome ha]

theorem get_children_state_w (g : AdjacencyListGraph V W) (v : V)
    (hwf : g.wfKeys = true) : (g.get_children v).2 = g := by
  unfold get_children
  cases h : g.has_vertex v with
  | false => simp
  | true =>
    rw [if_neg (by simp)]
    obtain ⟨a, ha⟩ := wf_entry hwf h
    rw [alGetIns_of_isSome ha]

theorem remove_edge_missing_w (g : AdjacencyListGraph V W) (u v : V)
    (h1 : g.has_vertex u = true) (h2 : g.has_vertex v = true)
    (hwf : g.wfKeys = true)
    (habs : findWeight (alGetD g.adjacency_list u []) v = none) :
    g.remove_edge u v = (some GraphError.edgeNotFound, g) := by
  obtain ⟨a, ha⟩ := wf_entry hwf h1
  have hda : alGetD g.adjacency_list u [] = a := by simp [alGetD, ha]
  rw [hda] at habs
  simp only [remove_edge, h1, h2, Bool.not_true, Bool.or_self,
    Bool.false_eq_true, if_false]
  rw [alGetIns_of_isSome ha, habs]
  simp

end AdjacencyListGraph

namespace AdjacencyListGraphBool

variable {V : Type} [DecidableEq V]

theorem has_edge_stable (g : AdjacencyListGraphBool V) (u v : V) :
    ((g.has_edge u v).2).has_edge u v
      = ((g.has_edge u v).1, (g.has_edge u v).2) := by
  unfold has_edge
  rw [alGetIns_of_isSome (alGet_alGetIns_snd_self
    (m := g.adjacency_list) (k := u) (d := []))]

theorem has_edge_state_b (g : AdjacencyListGraphBool V) (u v : V)
    (hwf : g.wfKeys = true) (hu : g.has_vertex u = true) :
    (g.has_edge u v).2 = g := by
  obtain ⟨a, ha⟩ := wf_entry hwf hu
  unfold has_edge
  rw [alGetIns_of_isSome ha]

theorem get_children_state_b (g : AdjacencyListGraphBool V) (v : V)
    (hwf : g.wfKeys = true) : (g.get_children v).2 = g := by
  unfold get_children
  cases h : g.has_vertex v with
  | false => simp
  | true =>
    rw [if_neg (by simp)]
    obtain ⟨a, ha⟩ := wf_entry hwf h
    rw [alGetIns_of_isSome ha]

theorem remove_edge_missing_b (g : AdjacencyListGraphBool V) (u v : V)
    (hu : g.has_vertex u = true) (hwf : g.wfKeys = true)
    (habs : lmem v (alGetD g.adjacency_list u []) = false) :
    g.remove_edge u v = (some GraphError.edgeNotFound, g) := by
  obtain ⟨a, ha⟩ := wf_entry hwf hu
  have hda : alGetD g.adjacency_list u [] = a := by simp [alGetD, ha]
  rw [hda] at habs
  unfold remove_edge has_edge
  rw [alGetIns_of_isSome ha]
  simp [habs]

end AdjacencyListGraphBool

namespace AdjacencyMatrixGraph

variable {V W : Type} [DecidableEq V]

theorem has_edge_eval (g : AdjacencyMatrixGraph V W) (u v : V)
    (h1 : lmem u g.vertices = true) (h2 : lmem v g.vertices = true) :
    g.has_edge u v
      = .ok (cellAt g.adjacency_matrix (idxD g u) (idxD g v)).isSome := by
  simp only [has_edge, get_vertex_int, h1, h2, if_true]

theorem get_edge_weight_eval (g : AdjacencyMatrixGraph V W) (u v : V)
    {key : Nat × Nat} {w : W}
    (h1 : lmem u g.vertices = true) (h2 : lmem v g.vertices = true)
    (hc : cellAt g.adjacency_matrix (idxD g u) (idxD g v) = some key)
    (hk : alGet g.edge_weights key = some w) :
    g.get_edge_weight u v = .ok w := by
  simp only [get_edge_weight, get_vertex_int, h1, h2, if_true, hc, hk]

theorem remove_edge_missing_m (g : AdjacencyMatrixGraph V W) (u v : V)
    (h1 : lmem u g.vertices = true) (h2 : lmem v g.vertices = true)
    (habs : cellAt g.adjacency_matrix (idxD g u) (idxD g v) = none) :
    g.remove_edge u v = (none, g) := by
  simp only [remove_edge, get_vertex_int, h1, h2, if_true, habs,
    Option.isNone_none, if_true]

theorem set_result_queries (g g2 : AdjacencyMatrixGraph V W) (u v : V) (w : W)
    {key : Nat × Nat}
    (hvt : g2.vertices = g.vertices)
    (hvi : g2.vertex_indices = g.vertex_indices)
    (h1 : lmem u g.vertices = true) (h2 : lmem v g.vertices = true)
    (hc : cellAt g2.adjacency_matrix (idxD g u) (idxD g v) = some key)
    (hk : alGet g2.edge_weights key = some w) :
    g2.has_edge u v = GraphResult.ok true ∧
    g2.get_edge_weight u v = GraphResult.ok w := by
  have h1'' : lmem u g2.vertices = true := by rw [hvt]; exact h1
  have h2'' : lmem v g2.vertices = true := by rw [hvt]; exact h2
  have hidu : idxD g2 u = idxD g u := by unfold idxD; rw [hvi]
  have hidv : idxD g2 v = idxD g v := by unfold idxD; rw [hvi]
  constructor
  · rw [has_edge_eval g2 u v h1'' h2'', hidu, hidv, hc]
    rfl
  · exact get_edge_weight_eval g2 u v h1'' h2''
      (by rw [hidu, hidv]; exact hc) hk

theorem set_then_query_m (g : AdjacencyMatrixGraph V W) (u v : V) (w : W)
    (h1 : g.has_vertex u = true) (h2 : g.has_vertex v = true)
    (hb1 : idxD g u < g.adjacency_matrix.length)
    (hb2 : idxD g v < (lgetD g.adjacency_matrix (idxD g u) []).length)
    (hb3 : g.directed = true ∨
      (idxD g v < g.adjacency_matrix.length ∧
       idxD g u < (lgetD g.adjacency_matrix (idxD g v) []).length)) :
    (g.set_edge_weight u v w).1 = none ∧
    (g.set_edge_weight u v w).2.has_edge u v = GraphResult.ok true ∧
    (g.set_edge_weight u v w).2.get_edge_weight u v = GraphResult.ok w := by
  have h1' : lmem u g.vertices = true := h1
  have h2' : lmem v g.vertices = true := h2
  by_cases hd : g.directed = true
  · simp only [set_edge_weight, get_vertex_int, h1', h2', if_true, hd]
    refine ⟨trivial, ?_⟩
    exact set_result_queries g _ u v w rfl rfl h1' h2'
      (cellAt_setCell_self hb1 hb2) alGet_alSet_self
  · have hd' : g.directed = false := by
      cases h : g.directed with
      | true => exact absurd h hd
      | false => rfl
    rcases hb3 with hb3 | ⟨hb3a, hb3b⟩
    · exact absurd hb3 hd
    simp only [set_edge_weight, get_vertex_int, h1', h2', if_true, hd',
      Bool.false_eq_true, if_false]
    refine ⟨trivial, ?_⟩
    by_cases hvu : idxD g v = idxD g u
    · have hcell : cellAt
          (setCell
            (setCell g.adjacency_matrix (idxD g u) (idxD g v)
              (some (idxD g u, idxD g v)))
            (idxD g v) (idxD g u) (some (idxD g v, idxD g u)))
          (idxD g u) (idxD g v) = some (idxD g v, idxD g u) := by
        rw [hvu]
        exact cellAt_setCell_self
          (by rw [setCell_length]; exact hb1)
          (by rw [lgetD_setCell_row_length hb1]; rw [hvu] at hb2; exact hb2)
      refine set_result_queries g _ u v w rfl rfl h1' h2' hcell ?_
      rw [hvu]
      exact alGet_alSet_self
    · have hcell : cellAt
          (setCell
            (setCell g.adjacency_matrix (idxD g u) (idxD g v)
              (some (idxD g u, idxD g v)))
            (idxD g v) (idxD g u) (some (idxD g v, idxD g u)))
          (idxD g u) (idxD g v) = some (idxD g u, idxD g v) := by
        rw [cellAt_setCell_row_ne hvu]
        exact cellAt_setCell_self hb1 hb2
      refine set_result_queries g _ u v w rfl rfl h1' h2' hcell ?_
      rw [alGet_alSet_ne (fun hp => hvu (congrArg Prod.fst hp))]
      exact alGet_alSet_self

theorem children_eq_parents (g : AdjacencyMatrixGraph V W) (v : V)
    (hv : lmem v g.vertices = true)
    (hvi : idxD g v < g.vertices.length)
    (hsym : g.symB = true) :
    g.get_children v = g.get_parents v := by
  simp only [get_children, get_parents, get_vertex_int, hv, if_true]
  unfold childVertices parentVertices
  have hfil : (withIdx V 0 g.vertices).filter
      (fun p => (cellAt g.adjacency_matrix (idxD g v) p.1).isSome)
      = (withIdx V 0 g.vertices).filter
      (fun p => (cellAt g.adjacency_matrix p.1 (idxD g v)).isSome) := by
    apply filter_congr_of_mem
    intro x hx
    have hxlt : x.1 < g.vertices.length := by
      have := mem_withIdx_lt hx
      simpa using this
    have hrow := List.all_eq_true.mp hsym (idxD g v) (List.mem_range.mpr hvi)
    have hcol := List.all_eq_true.mp hrow x.1 (List.mem_range.mpr hxlt)
    exact eq_of_beq hcol
  rw [hfil]

theorem add_vertices_fail_m (g : AdjacencyMatrixGraph V W) (vs : List V)
    (h : (sdedup vs).any (fun v => lmem v g.vertices) = true) :
    g.add_vertices vs = (some GraphError.duplicateVertex, g) := by
  simp only [add_vertices, h, if_true]

theorem add_vertices_ok_m (g : AdjacencyMatrixGraph V W) (vs : List V)
    (h : (sdedup vs).any (fun v => lmem v g.vertices) = false) :
    (g.add_vertices vs).1 = none ∧
    ∀ x, lmem x vs = true → (g.add_vertices vs).2.has_vertex x = true := by
  constructor
  · simp only [add_vertices, h, Bool.false_eq_true, if_false]
  · intro x hx
    simp only [add_vertices, h, Bool.false_eq_true, if_false, has_vertex]
    rw [lmem_append, lmem_sdedup, hx]
    simp

end AdjacencyMatrixGraph

namespace AdjacencyListGraph

variable {V W : Type} [DecidableEq V]

theorem children_parents_w (g : AdjacencyListGraph V W) (v : V)
    (hv : g.has_vertex v = true) (hm : g.mirrorB = true) :
    ∃ cs ps, (g.get_children v).1 = GraphResult.ok cs ∧
      g.get_parents v = GraphResult.ok ps ∧
      ∀ x, x ∈ ps ↔ (x ∈ cs ∧ x ≠ v) := by
  have hc : (g.get_children v).1
      = .ok (((alGetIns g.adjacency_list v []).1.map Prod.fst).dedup) := by
    unfold get_children
    rw [if_neg (by simp [hv])]
  have hp : g.get_parents v = .ok ((g.adjacency_list.filter
      (fun p => if p.1 = v then false else (findWeight p.2 v).isSome)).map
        Prod.fst) := by
    unfold get_parents
    rw [if_neg (by simp [hv])]
  refine ⟨_, _, hc, hp, ?_⟩
  intro x
  rw [alGetIns_fst]
  constructor
  · intro hx
    obtain ⟨q, hqf, hqx⟩ := List.mem_map.mp hx
    obtain ⟨hqal, hpred⟩ := List.mem_filter.mp hqf
    by_cases hqv : q.1 = v
    · rw [if_pos hqv] at hpred
      exact absurd hpred (by simp)
    · rw [if_neg hqv] at hpred
      obtain ⟨c, hcq, hcv⟩ := List.mem_map.mp
        (findWeight_isSome_iff_mem_map.mp hpred)
      have hmq := List.all_eq_true.mp hm q hqal
      have hmc := List.all_eq_true.mp hmq c hcq
      rw [hcv] at hmc
      refine ⟨List.mem_dedup.mpr (findWeight_isSome_iff_mem_map.mp ?_), ?_⟩
      · rw [hqx] at hmc
        exact hmc
      · rw [← hqx]
        exact hqv
  · rintro ⟨hx, hxv⟩
    have hfs : (findWeight (alGetD g.adjacency_list v []) x).isSome = true :=
      findWeight_isSome_iff_mem_map.mpr (List.mem_dedup.mp hx)
    cases hgv : alGet g.adjacency_list v with
    | none =>
      rw [alGetD, hgv] at hfs
      simp [findWeight] at hfs
    | some S =>
      have hSd : alGetD g.adjacency_list v [] = S := by simp [alGetD, hgv]
      rw [hSd] at hfs
      obtain ⟨c, hcS, hcx⟩ := List.mem_map.mp
        (findWeight_isSome_iff_mem_map.mp hfs)
      have hmv := List.all_eq_true.mp hm _ (alGet_mem hgv)
      have hmc := List.all_eq_true.mp hmv c hcS
      rw [hcx] at hmc
      cases hgx : alGet g.adjacency_list x with
      | none =>
        rw [alGetD, hgx] at hmc
        simp [findWeight] at hmc
      | some T =>
        have hTd : alGetD g.adjacency_list x [] = T := by simp [alGetD, hgx]
        rw [hTd] at hmc
        refine List.mem_map.mpr ⟨(x, T), List.mem_filter.mpr
          ⟨alGet_mem hgx, ?_⟩, rfl⟩
        rw [if_neg hxv]
        exact hmc

theorem add_vertices_fail_w (g : AdjacencyListGraph V W) (vs : List V)
    (h : (sdedup vs).any (fun v => has_vertex g v) = true) :
    g.add_vertices vs = (some GraphError.duplicateVertex, g) := by
  simp only [add_vertices, h, if_true]

theorem add_vertices_ok_w (g : AdjacencyListGraph V W) (vs : List V)
    (h : (sdedup vs).any (fun v => has_vertex g v) = false) :
    (g.add_vertices vs).1 = none ∧
    ∀ x, lmem x vs = true → (g.add_vertices vs).2.has_vertex x = true := by
  constructor
  · simp only [add_vertices, h, Bool.false_eq_true, if_false]
  · intro x hx
    simp only [add_vertices, h, Bool.false_eq_true, if_false]
    show lmem x (g.vertices ++ sdedup vs) = true
    rw [lmem_append, lmem_sdedup, hx]
    simp

end AdjacencyListGraph

namespace AdjacencyListGraphBool

variable {V : Type} [DecidableEq V]

theorem children_parents_b (g : AdjacencyListGraphBool V) (v : V)
    (hv : g.has_vertex v = true) (hm : g.mirrorB = true) :
    ∃ cs ps, (g.get_children v).1 = GraphResult.ok cs ∧
      g.get_parents v = GraphResult.ok ps ∧
      ∀ x, x ∈ cs ↔ x ∈ ps := by
  have hc : (g.get_children v).1 = .ok ((alGetIns g.adjacency_list v []).1) := by
    unfold get_children
    rw [if_neg (by simp [hv])]
  have hp : g.get_parents v = .ok ((g.adjacency_list.filter
      (fun p => lmem v p.2)).map Prod.fst) := by
    unfold get_parents
    rw [if_neg (by simp [hv])]
  refine ⟨_, _, hc, hp, ?_⟩
  intro x
  rw [alGetIns_fst]
  constructor
  · intro hx
    cases hgv : alGet g.adjacency_list v with
    | none =>
      rw [alGetD, hgv] at hx
      simp at hx
    | some S =>
      have hSd : alGetD g.adjacency_list v [] = S := by simp [alGetD, hgv]
      rw [hSd] at hx
      have hmv := List.all_eq_true.mp hm _ (alGet_mem hgv)
      have hmx := List.all_eq_true.mp hmv x hx
      cases hgx : alGet g.adjacency_list x with
      | none =>
        rw [alGetD, hgx] at hmx
        simp [lmem] at hmx
      | some T =>
        have hTd : alGetD g.adjacency_list x [] = T := by simp [alGetD, hgx]
        rw [hTd] at hmx
        exact List.mem_map.mpr ⟨(x, T), List.mem_filter.mpr
          ⟨alGet_mem hgx, hmx⟩, rfl⟩
  · intro hx
    obtain ⟨q, hqf, hqx⟩ := List.mem_map.mp hx
    obtain ⟨hqal, hpred⟩ := List.mem_filter.mp hqf
    have hmq := List.all_eq_true.mp hm q hqal
    have hmv := List.all_eq_true.mp hmq v (lmem_iff.mp hpred)
    rw [hqx] at hmv
    exact lmem_iff.mp hmv

theorem add_vertices_fail_b (g : AdjacencyListGraphBool V) (vs : List V)
    (h : (sdedup vs).any (fun v => has_vertex g v) = true) :
    g.add_vertices vs = (some GraphError.duplicateVertex, g) := by
  simp only [add_vertices, h, if_true]

theorem add_vertices_ok_b (g : AdjacencyListGraphBool V) (vs : List V)
    (h : (sdedup vs).any (fun v => has_vertex g v) = false) :
    (g.add_vertices vs).1 = none ∧
    ∀ x, lmem x vs = true → (g.add_vertices vs).2.has_vertex x = true := by
  constructor
  · simp only [add_vertices, h, Bool.false_eq_true, if_false]
  · intro x hx
    simp only [add_vertices, h, Bool.false_eq_true, if_false]
    show lmem x (g.vertices ++ sdedup vs) = true
    rw [lmem_append, lmem_sdedup, hx]
    simp

end AdjacencyListGraphBool

/-! Claim theorems. -/

/-- Claim C1, counterexample to the claim as stated: in the unweighted
adjacency-list backend, set_edge_weight(0, 1, false) on existing vertices
0 and 1 leaves has_edge(0, 1) = false, not true as the claim demands for
every backend and every weight. -/
theorem claim_C1_counterexample :
    AdjacencyListGraphBool.has_vertex exC1 0 = true ∧
    AdjacencyListGraphBool.has_vertex exC1 1 = true ∧
    (AdjacencyListGraphBool.has_edge exC1' 0 1).1 = false ∧
    (AdjacencyListGraphBool.get_edge_weight exC1' 0 1).1
      = GraphResult.ok false := by decide

/-- Claim C1 as amended: after set_edge_weight(u, v, w) with both
endpoints present, get_edge_weight(u, v) returns w in all three backends,
and has_edge(u, v) is true in the weighted list and matrix backends while
in the unweighted list backend has_edge(u, v) equals w (false removes the
edge).  The weighted list backend needs duplicate-free neighbour vectors
and the matrix backend needs the indices of u and v to lie inside the
matrix, both of which hold in every state not already corrupted by the
defects recorded under claims C5 and C6. -/
theorem claim_C1_amended {V W : Type} [DecidableEq V]
    (gw : AdjacencyListGraph V W) (gb : AdjacencyListGraphBool V)
    (gm : AdjacencyMatrixGraph V W) (u v : V) (w : W) (bw : Bool)
    (h1 : gw.has_vertex u = true) (h2 : gw.has_vertex v = true)
    (h3 : gw.neighborKeysNodup = true)
    (h4 : gb.has_vertex u = true) (h5 : gb.has_vertex v = true)
    (h6 : gm.has_vertex u = true) (h7 : gm.has_vertex v = true)
    (h8 : AdjacencyMatrixGraph.idxD gm u < gm.adjacency_matrix.length)
    (h9 : AdjacencyMatrixGraph.idxD gm v
      < (lgetD gm.adjacency_matrix (AdjacencyMatrixGraph.idxD gm u) []).length)
    (h10 : gm.directed = true ∨
      (AdjacencyMatrixGraph.idxD gm v < gm.adjacency_matrix.length ∧
       AdjacencyMatrixGraph.idxD gm u
         < (lgetD gm.adjacency_matrix (AdjacencyMatrixGraph.idxD gm v) []).length)) :
    ((gw.set_edge_weight u v w).1 = none ∧
     ((gw.set_edge_weight u v w).2.has_edge u v).1 = true ∧
     ((gw.set_edge_weight u v w).2.get_edge_weight u v).1 = GraphResult.ok w) ∧
    ((gb.set_edge_weight u v bw).1 = none ∧
     ((gb.set_edge_weight u v bw).2.has_edge u v).1 = bw ∧
     ((gb.set_edge_weight u v bw).2.get_edge_weight u v).1 = GraphResult.ok bw) ∧
    ((gm.set_edge_weight u v w).1 = none ∧
     (gm.set_edge_weight u v w).2.has_edge u v = GraphResult.ok true ∧
     (gm.set_edge_weight u v w).2.get_edge_weight u v = GraphResult.ok w) :=
  ⟨AdjacencyListGraph.set_then_query_w gw u v w h1 h2 h3,
   AdjacencyListGraphBool.set_then_query_b gb u v bw h4 h5,
   AdjacencyMatrixGraph.set_then_query_m gm u v w h6 h7 h8 h9 h10⟩

/-- Claim C1, witness: the amended theorem applied to concrete two-vertex
graphs of each backend. -/
theorem claim_C1_witness :
    AdjacencyListGraph.neighborKeysNodup wC1w = true ∧
    ((wC1w.set_edge_weight 0 1 5).2.get_edge_weight 0 1).1
      = GraphResult.ok 5 :=
  ⟨by decide,
   (claim_C1_amended wC1w wC1b wC1m 0 1 (5 : Int) true (by decide) (by decide)
     (by decide) (by decide) (by decide) (by decide) (by decide) (by decide)
     (by decide) (by decide)).1.2.2⟩

/-- Claim C2: after remove_vertex(1) on the weighted directed list graph
with edge (0, 1, 5), vertex 1 is gone from the vertex set but
get_children(0) still reports 1 — the removal loop erases from a local
copy of each neighbour vector, so the stale edge survives, contradicting
the claim that no remaining vertex keeps the removed vertex among its
edges. -/
theorem claim_C2_code_bug :
    AdjacencyListGraph.has_vertex exC2 1 = false ∧
    (AdjacencyListGraph.get_children exC2 0).1 = GraphResult.ok [1] := by decide

/-- Claim C3: the matrix backend's has_edge throws UnknownVertex for an
absent vertex (despite its own comment promising false), while both list
backends return false as the claim demands. -/
theorem claim_C3_code_bug :
    (AdjacencyListGraph.has_edge exC3w 1 0).1 = false ∧
    (AdjacencyListGraphBool.has_edge exC3b 1 0).1 = false ∧
    AdjacencyMatrixGraph.has_edge exC3m 1 0
      = GraphResult.err GraphError.unknownVertex := by decide

/-- Claim C4, counterexample to the claim as stated: in the matrix backend
remove_edge(0, 1) with both vertices present and no such edge reports no
failure at all (it only prints a warning) — the graph is unchanged but no
EdgeNotFound error is raised. -/
theorem claim_C4_counterexample :
    AdjacencyMatrixGraph.has_vertex exC4 0 = true ∧
    AdjacencyMatrixGraph.has_vertex exC4 1 = true ∧
    AdjacencyMatrixGraph.has_edge exC4 0 1 = GraphResult.ok false ∧
    AdjacencyMatrixGraph.remove_edge exC4 0 1 = (none, exC4) := by decide

/-- Claim C4 as amended: with both endpoints present and the edge absent,
remove_edge fails with EdgeNotFound and leaves the graph unchanged in both
adjacency-list backends, while the adjacency-matrix backend leaves the
graph unchanged but reports no failure. -/
theorem claim_C4_amended {V W : Type} [DecidableEq V]
    (gw : AdjacencyListGraph V W) (gb : AdjacencyListGraphBool V)
    (gm : AdjacencyMatrixGraph V W) (u v : V)
    (h1 : gw.has_vertex u = true) (h2 : gw.has_vertex v = true)
    (h3 : gw.wfKeys = true)
    (h4 : findWeight (alGetD gw.adjacency_list u []) v = none)
    (h5 : gb.has_vertex u = true) (h6 : gb.has_vertex v = true)
    (h7 : gb.wfKeys = true)
    (h8 : lmem v (alGetD gb.adjacency_list u []) = false)
    (h9 : gm.has_vertex u = true) (h10 : gm.has_vertex v = true)
    (h11 : AdjacencyMatrixGraph.cellAt gm.adjacency_matrix
      (AdjacencyMatrixGraph.idxD gm u) (AdjacencyMatrixGraph.idxD gm v) = none) :
    gw.remove_edge u v = (some GraphError.edgeNotFound, gw) ∧
    gb.remove_edge u v = (some GraphError.edgeNotFound, gb) ∧
    gm.remove_edge u v = (none, gm) :=
  ⟨AdjacencyListGraph.remove_edge_missing_w gw u v h1 h2 h3 h4,
   AdjacencyListGraphBool.remove_edge_missing_b gb u v h5 h7 h8,
   AdjacencyMatrixGraph.remove_edge_missing_m gm u v h9 h10 h11⟩

/-- Claim C4, witness: the amended theorem applied to concrete edge-free
two-vertex graphs of each backend. -/
theorem claim_C4_witness :
    AdjacencyListGraph.wfKeys wC4w = true ∧
    (wC4w.remove_edge 2 3 = (some GraphError.edgeNotFound, wC4w) ∧
     wC4b.remove_edge 2 3 = (some GraphError.edgeNotFound, wC4b) ∧
     wC4m.remove_edge 2 3 = (none, wC4m)) :=
  ⟨by decide,
   claim_C4_amended wC4w wC4b wC4m 2 3 (by decide) (by decide) (by decide)
     (by decide) (by decide) (by decide) (by decide) (by decide) (by decide)
     (by decide) (by decide)⟩

/-- Claim C5: the cell/weight-store correspondence holds after the
constructor and set_edge_weight, but remove_vertex deletes row and column
without renumbering the weight-store keys of the shifted vertices: after
removing vertex 10 from the graph with edge (11, 12, 5), cell (0, 1) is
non-empty while the store's only key is still (1, 2). -/
theorem claim_C5_code_bug :
    AdjacencyMatrixGraph.cellStoreOK exC5 = true ∧
    AdjacencyMatrixGraph.cellStoreOK exC5' = false := by decide

/-- Claim C6: add_vertex(1) on a one-vertex matrix graph appends a column
to the old row but builds the new row with the vertex count taken before
the insertion, so the new row has one cell instead of two and the matrix
is no longer square. -/
theorem claim_C6_code_bug :
    AdjacencyMatrixGraph.isSquare exC6 = true ∧
    (AdjacencyMatrixGraph.add_vertex exC6 1).1 = none ∧
    ((AdjacencyMatrixGraph.add_vertex exC6 1).2.adjacency_matrix.map
      List.length) = [2, 1] ∧
    AdjacencyMatrixGraph.isSquare (AdjacencyMatrixGraph.add_vertex exC6 1).2
      = false := by decide

/-- Claim C7, counterexample to the claim as stated: in the weighted
undirected list graph with the self-loop (0, 0, 1), get_children(0)
contains 0 but get_parents(0) is empty — get_parents skips the vertex's
own adjacency entry, so the two sets differ on self-loops. -/
theorem claim_C7_counterexample :
    exC7.directed = false ∧
    (AdjacencyListGraph.get_children exC7 0).1 = GraphResult.ok [0] ∧
    AdjacencyListGraph.get_parents exC7 0 = GraphResult.ok [] := by decide

/-- Claim C7 as amended: in undirected graphs whose adjacency structure is
mirror-symmetric, get_children and get_parents return the same set in the
unweighted list backend and in the matrix backend; in the weighted list
backend get_parents returns the children minus the vertex itself, since
its loop skips the vertex's own entry. -/
theorem claim_C7_amended {V W : Type} [DecidableEq V]
    (gw : AdjacencyListGraph V W) (gb : AdjacencyListGraphBool V)
    (gm : AdjacencyMatrixGraph V W) (v : V)
    (hw0 : gw.directed = false) (hw1 : gw.has_vertex v = true)
    (hw2 : gw.mirrorB = true)
    (hb0 : gb.directed = false) (hb1 : gb.has_vertex v = true)
    (hb2 : gb.mirrorB = true)
    (hm0 : gm.directed = false) (hm1 : gm.has_vertex v = true)
    (hm2 : AdjacencyMatrixGraph.idxD gm v < gm.vertices.length)
    (hm3 : gm.symB = true) :
    (∃ cs ps, (gw.get_children v).1 = GraphResult.ok cs ∧
      gw.get_parents v = GraphResult.ok ps ∧
      ∀ x, x ∈ ps ↔ (x ∈ cs ∧ x ≠ v)) ∧
    (∃ cs ps, (gb.get_children v).1 = GraphResult.ok cs ∧
      gb.get_parents v = GraphResult.ok ps ∧
      ∀ x, x ∈ cs ↔ x ∈ ps) ∧
    gm.get_children v = gm.get_parents v :=
  ⟨AdjacencyListGraph.children_parents_w gw v hw1 hw2,
   AdjacencyListGraphBool.children_parents_b gb v hb1 hb2,
   AdjacencyMatrixGraph.children_eq_parents gm v hm1 hm2 hm3⟩

/-- Claim C7, witness: the amended theorem applied to concrete undirected
two-vertex graphs with the edge (0, 1) in each backend. -/
theorem claim_C7_witness :
    AdjacencyListGraph.mirrorB wC7w = true ∧
    wC7m.get_children 0 = wC7m.get_parents 0 :=
  ⟨by decide,
   (claim_C7_amended wC7w wC7b wC7m 0 (by decide) (by decide) (by decide)
     (by decide) (by decide) (by decide) (by decide) (by decide) (by decide)
     (by decide)).2.2⟩

/-- Claim C8: add_vertices is all-or-nothing in every backend — when some
batch vertex is already present the call fails with DuplicateVertex and
returns the graph unchanged (the check loop runs before any insertion),
and on success every batch vertex is present afterwards. -/
theorem claim_C8_confirmed {V W : Type} [DecidableEq V]
    (gw : AdjacencyListGraph V W) (gb : AdjacencyListGraphBool V)
    (gm : AdjacencyMatrixGraph V W) (vs : List V) :
    (((sdedup vs).any (fun x => AdjacencyListGraph.has_vertex gw x) = true →
      gw.add_vertices vs = (some GraphError.duplicateVertex, gw)) ∧
     ((sdedup vs).any (fun x => AdjacencyListGraph.has_vertex gw x) = false →
      (gw.add_vertices vs).1 = none ∧
      ∀ x, lmem x vs = true → (gw.add_vertices vs).2.has_vertex x = true)) ∧
    (((sdedup vs).any (fun x => AdjacencyListGraphBool.has_vertex gb x) = true →
      gb.add_vertices vs = (some GraphError.duplicateVertex, gb)) ∧
     ((sdedup vs).any (fun x => AdjacencyListGraphBool.has_vertex gb x) = false →
      (gb.add_vertices vs).1 = none ∧
      ∀ x, lmem x vs = true → (gb.add_vertices vs).2.has_vertex x = true)) ∧
    (((sdedup vs).any (fun x => lmem x gm.vertices) = true →
      gm.add_vertices vs = (some GraphError.duplicateVertex, gm)) ∧
     ((sdedup vs).any (fun x => lmem x gm.vertices) = false →
      (gm.add_vertices vs).1 = none ∧
      ∀ x, lmem x vs = true → (gm.add_vertices vs).2.has_vertex x = true)) :=
  ⟨⟨fun h => AdjacencyListGraph.add_vertices_fail_w gw vs h,
    fun h => AdjacencyListGraph.add_vertices_ok_w gw vs h⟩,
   ⟨fun h => AdjacencyListGraphBool.add_vertices_fail_b gb vs h,
    fun h => AdjacencyListGraphBool.add_vertices_ok_b gb vs h⟩,
   ⟨fun h => AdjacencyMatrixGraph.add_vertices_fail_m gm vs h,
    fun h => AdjacencyMatrixGraph.add_vertices_ok_m gm vs h⟩⟩

/-- Claim C8, witness: a failing batch (0 duplicates the existing vertex)
leaves the one-vertex weighted list graph unchanged, and a fresh batch is
fully inserted. -/
theorem claim_C8_witness :
    wC8w.add_vertices [0, 5] = (some GraphError.duplicateVertex, wC8w) ∧
    (wC8w.add_vertices [5, 6]).1 = none ∧
    (wC8w.add_vertices [5, 6]).2.has_vertex 6 = true :=
  ⟨(claim_C8_confirmed wC8w wC8b wC8m [0, 5]).1.1 (by decide),
   ((claim_C8_confirmed wC8w wC8b wC8m [5, 6]).1.2 (by decide)).1,
   ((claim_C8_confirmed wC8w wC8b wC8m [5, 6]).1.2 (by decide)).2 6 (by decide)⟩

/-- Claim C9, counterexample to the claim as stated: in the unweighted
list backend, has_edge(0, 0) on a graph whose adjacency map has no entry
for 0 inserts an empty neighbour-set entry through operator[], so the
graph state after the query differs from the state before it. -/
theorem claim_C9_counterexample :
    AdjacencyListGraphBool.has_vertex exC9 0 = false ∧
    (AdjacencyListGraphBool.has_edge exC9 0 0).1 = false ∧
    (AdjacencyListGraphBool.has_edge exC9 0 0).2 ≠ exC9 := by decide

/-- Claim C9 as amended: has_vertex and get_parents are read-only by
construction; has_edge and get_children leave the graph unchanged in the
weighted list backend (for any arguments) and in the unweighted list
backend whenever the queried vertex has its map entry; and even where the
unweighted has_edge extends the map with an empty entry, repeating the
query yields the identical result and leaves the state fixed. -/
theorem claim_C9_amended {V W : Type} [DecidableEq V]
    (gw : AdjacencyListGraph V W) (gb gb2 : AdjacencyListGraphBool V)
    (u v x y a b : V)
    (hw : gw.wfKeys = true) (hb : gb.wfKeys = true)
    (hbu : gb.has_vertex u = true) :
    (gw.has_edge x y).2 = gw ∧
    (gw.get_children x).2 = gw ∧
    (gb.has_edge u v).2 = gb ∧
    (gb.get_children x).2 = gb ∧
    (gb2.has_edge a b).2.has_edge a b
      = ((gb2.has_edge a b).1, (gb2.has_edge a b).2) :=
  ⟨AdjacencyListGraph.has_edge_state_w gw x y hw,
   AdjacencyListGraph.get_children_state_w gw x hw,
   AdjacencyListGraphBool.has_edge_state_b gb u v hb hbu,
   AdjacencyListGraphBool.get_children_state_b gb x hb,
   AdjacencyListGraphBool.has_edge_stable gb2 a b⟩

/-- Claim C9, witness: the amended theorem applied to concrete two-vertex
list graphs, including a repetition of has_edge on a graph that lacks the
queried vertex. -/
theorem claim_C9_witness :
    AdjacencyListGraph.wfKeys wC9w = true ∧
    (wC9w.has_edge 0 1).2 = wC9w :=
  ⟨by decide,
   (claim_C9_amended wC9w wC9b exC9 0 1 0 1 5 6 (by decide) (by decide)
     (by decide)).1⟩

/-- Claim C10, counterexample to the claim as stated: in the unweighted
list backend, get_edge_weight(0, 1) with vertex 1 absent does not silently
return false — it fails with UnknownVertex. -/
theorem claim_C10_counterexample :
    AdjacencyListGraphBool.has_vertex exC10 1 = false ∧
    (AdjacencyListGraphBool.get_edge_weight exC10 0 1).1
      = GraphResult.err GraphError.unknownVertex := by decide

/-- Claim C10 as amended: in the unweighted list backend, get_edge_weight
with at least one endpoint absent fails with UnknownVertex and leaves the
graph unchanged (the vertex check precedes the has_edge call). -/
theorem claim_C10_amended {V : Type} [DecidableEq V]
    (g : AdjacencyListGraphBool V) (u v : V)
    (h : (!(AdjacencyListGraphBool.has_vertex g u)
      || !(AdjacencyListGraphBool.has_vertex g v)) = true) :
    g.get_edge_weight u v = (GraphResult.err GraphError.unknownVertex, g) := by
  unfold AdjacencyListGraphBool.get_edge_weight
  rw [if_pos h]

/-- Claim C10, witness: the amended theorem applied to the one-vertex
graph with an unknown second endpoint. -/
theorem claim_C10_witness :
    (!(AdjacencyListGraphBool.has_vertex wC10 5)
      || !(AdjacencyListGraphBool.has_vertex wC10 9)) = true ∧
    wC10.get_edge_weight 5 9 = (GraphResult.err GraphError.unknownVertex, wC10) :=
  ⟨by decide, claim_C10_amended wC10 5 9 (by decide)⟩
